/-
Verification of the monosodium favorites archiver (src/main.rs) against its
natural-language specification.

The Rust program walks paginated favorites, hydrates local paths onto each
post, filters posts that still need downloading, fetches each media URL and
writes a metadata record.  We embed the pipeline shallowly: the filesystem is
an association list from path to contents, the HTTP transport is an oracle
(page fetches and per-item media fetches), and each Rust function becomes a
Lean function over that explicit state.  Rust panics (the unwrap calls on the
hydrated path fields) are modelled by an Option result, with none meaning the
program panicked.
-/
import Mathlib

set_option autoImplicit false
set_option maxRecDepth 4096

namespace Monosodium

/-! ## Data model (structs Post, FileData, Tags, Flags, ApiResponse) -/

/-- Rust struct FileData: per-post file attributes.  The url is optional:
it may not be present if the remote file is deleted. -/
structure FileData where
  width : Nat
  height : Nat
  ext : String
  size : Nat
  md5 : String
  url : Option String
  deriving Repr, DecidableEq

/-- Rust struct Tags: the eight fixed tag categories. -/
structure Tags where
  general : List String
  species : List String
  character : List String
  copyright : List String
  artist : List String
  invalid : List String
  lore : List String
  meta : List String
  deriving Repr, DecidableEq

/-- Rust struct Flags: post status flags. -/
structure Flags where
  pending : Bool
  flagged : Bool
  deleted : Bool
  deriving Repr, DecidableEq

/-- Rust struct Post.  The two path fields are none as decoded from the API
and are hydrated after fetch.  Paths are modelled as strings. -/
structure Post where
  id : Nat
  created_at : String
  updated_at : String
  file : FileData
  tags : Tags
  rating : String
  flags : Flags
  file_path : Option String
  tags_path : Option String
  deriving Repr, DecidableEq

/-- Rust struct ApiResponse: one decoded page of posts. -/
structure ApiResponse where
  posts : List Post
  deriving Repr, DecidableEq

/-! ## Filesystem model

The destination directory tree is the only state the program mutates.  We
model it as an association list from path to file contents; the most recent
write for a path is the first entry with that key. -/

/-- The filesystem: a list of (path, contents) entries. -/
abbrev FS : Type := List (String × String)

/-- Path::exists, restricted to the files the program itself manages. -/
def fsExists (fs : FS) (p : String) : Bool :=
  fs.any (fun e => e.1 == p)

/-- Writing contents c at path p: File::create followed by write_all, or
File::create alone with c empty (create truncates). -/
def fsWrite (fs : FS) (p : String) (c : String) : FS :=
  (p, c) :: fs.filter (fun e => !(e.1 == p))

/-- Rust Path::join for the relative components this program builds. -/
def pathJoin (dir file : String) : String :=
  dir ++ "/" ++ file

/-! ## Hydration (ApiResponse::hydrate) -/

/-- The body of the for-loop in ApiResponse::hydrate for one post:
image_path = output.join(md5.ext), tags_path = metadata_dir.join(md5.json). -/
def hydratePost (output metadata_dir : String) (p : Post) : Post :=
  { p with
    file_path := some (pathJoin output (p.file.md5 ++ "." ++ p.file.ext))
    tags_path := some (pathJoin metadata_dir (p.file.md5 ++ ".json")) }

/-- ApiResponse::hydrate: mutates every post of the page in place; modelled
as a map over the posts. -/
def ApiResponse.hydrate (r : ApiResponse) (output metadata_dir : String) : ApiResponse :=
  { posts := r.posts.map (hydratePost output metadata_dir) }

/-! ## Serialization

Modelled from the spec: serde_json::to_string_pretty (the serde_json crate is
external to this repository) serializes the full Post record, including the
hydrated paths, to a structured text document.  The exact JSON layout is
irrelevant to every claim; we model it as a textual rendering of all fields. -/

/-- Modelled from the spec: serialization of one Post record by the external
serde_json crate; a textual rendering of every field including both hydrated
paths. -/
def serializePost (p : Post) : String :=
  "id=" ++ toString p.id ++
  ";created_at=" ++ p.created_at ++
  ";updated_at=" ++ p.updated_at ++
  ";width=" ++ toString p.file.width ++
  ";height=" ++ toString p.file.height ++
  ";ext=" ++ p.file.ext ++
  ";size=" ++ toString p.file.size ++
  ";md5=" ++ p.file.md5 ++
  ";url=" ++ (p.file.url.getD "null") ++
  ";general=" ++ String.intercalate "," p.tags.general ++
  ";species=" ++ String.intercalate "," p.tags.species ++
  ";character=" ++ String.intercalate "," p.tags.character ++
  ";copyright=" ++ String.intercalate "," p.tags.copyright ++
  ";artist=" ++ String.intercalate "," p.tags.artist ++
  ";invalid=" ++ String.intercalate "," p.tags.invalid ++
  ";lore=" ++ String.intercalate "," p.tags.lore ++
  ";meta=" ++ String.intercalate "," p.tags.meta ++
  ";rating=" ++ p.rating ++
  ";pending=" ++ toString p.flags.pending ++
  ";flagged=" ++ toString p.flags.flagged ++
  ";deleted=" ++ toString p.flags.deleted ++
  ";file_path=" ++ (p.file_path.getD "null") ++
  ";tags_path=" ++ (p.tags_path.getD "null")

/-! ## I/O oracles

The HTTP transport and local file creation are external capabilities.  Their
outcomes are supplied by oracles so that theorems quantify over every
possible failure pattern. -/

/-- Outcome of reqwest::get on one media URL followed by response.bytes().
The program never inspects the HTTP status, so a non-success response with a
body is also the body case. -/
inductive FetchOutcome where
  /-- reqwest::get returned Err (connection failure). -/
  | connErr
  /-- response.bytes() returned Err. -/
  | bodyErr
  /-- bytes received (success status, or non-success status with error body:
  the program does not check the status). -/
  | body (bytes : String)
  deriving Repr, DecidableEq

/-- Per-item oracle: whether File::create succeeds for the media file, the
fetch outcome for the media URL, and whether File::create succeeds for the
metadata file. -/
structure ItemEnv where
  mediaCreateOk : Bool
  fetch : FetchOutcome
  metaCreateOk : Bool
  deriving Repr, DecidableEq

/-- Outcome of one pagination request: client.get(url).send() followed by
json decoding.  fetchErr covers connection failure, non-success status and
decode failure, all of which propagate out of main. -/
inductive PageResult where
  | fetchErr
  | page (resp : ApiResponse)
  deriving Repr, DecidableEq

/-! ## archive_metadata and archive_post -/

/-- fn archive_metadata(post): File::create(tags_path.unwrap()), on success
write the serialized post; a create failure is silently skipped.  none means
the unwrap panicked (tags_path was none). -/
def archive_metadata (createOk : Bool) (post : Post) (fs : FS) : Option FS :=
  match post.tags_path with
  | none => none
  | some path =>
    if createOk then some (fsWrite fs path (serializePost post)) else some fs

/-- fn archive_post(post) -> Result: if the post has a url, File::create
the media path (unwrap of file_path; none models that panic) and then fetch;
received bytes are written to the already-created file; fetch errors are only
logged.  The function returns Ok in every non-panicking branch. -/
def archive_post (createOk : Bool) (fetch : FetchOutcome) (post : Post) (fs : FS) :
    Option (FS × Except Unit Unit) :=
  match post.file.url with
  | none => some (fs, Except.ok ())
  | some _ =>
    match post.file_path with
    | none => none
    | some path =>
      if createOk then
        -- File::create truncates: the file exists (empty) before the fetch
        let fs1 := fsWrite fs path ""
        match fetch with
        | FetchOutcome.body b => some (fsWrite fs1 path b, Except.ok ())
        | FetchOutcome.connErr => some (fs1, Except.ok ())
        | FetchOutcome.bodyErr => some (fs1, Except.ok ())
      else
        some (fs, Except.ok ())

/-! ## The main loop -/

/-- The eligibility filter of main: url present, file_path present, and no
file at the hydrated media path.  The Rust unwrap after the is_some check is
guarded by short-circuit evaluation, rendered here as a match. -/
def selectedPosts (fs : FS) (posts : List Post) : List Post :=
  posts.filter (fun x =>
    x.file.url.isSome &&
      match x.file_path with
      | some p => !(fsExists fs p)
      | none => false)

/-- The per-page download loop: archive_post(post).await? then
archive_metadata(post) for each selected post in order.  none models a
panic; Except.error models the question-mark propagation out of main. -/
def processPosts (ienv : Post → ItemEnv) : List Post → FS → Option (Except Unit FS)
  | [], fs => some (Except.ok fs)
  | p :: rest, fs =>
    match archive_post (ienv p).mediaCreateOk (ienv p).fetch p fs with
    | none => none
    | some (_, Except.error e) => some (Except.error e)
    | some (fs1, Except.ok ()) =>
      match archive_metadata (ienv p).metaCreateOk p fs1 with
      | none => none
      | some fs2 => processPosts ienv rest fs2

/-- How one run ended. -/
inductive RunOutcome where
  /-- The loop broke on an empty page; the completion message was printed. -/
  | done
  /-- A pagination fetch or decode failed; the question mark aborted main. -/
  | abortedFetch
  /-- archive_post returned Err and the question mark aborted main. -/
  | abortedItem
  /-- An unwrap panicked. -/
  | panicked
  /-- Model artifact: the fuel ran out before the loop ended. -/
  | outOfFuel
  deriving Repr, DecidableEq

/-- Result of a run: the outcome, the final filesystem, and the trace of page
numbers actually requested from the remote, in order. -/
structure RunResult where
  outcome : RunOutcome
  fs : FS
  requested : List Nat
  deriving Repr, DecidableEq

/-- The loop of main, from page number pg: request the page; abort on fetch
error; break on an empty page (then the completion message is printed);
otherwise hydrate, filter, process every selected post, and continue with the
next page.  env is the remote, ienv the per-item I/O oracle, dir and
metadata_dir the two output roots.  Structured on fuel since the page count
is unbounded. -/
def runPages (env : Nat → PageResult) (ienv : Post → ItemEnv) (dir metadata_dir : String) :
    Nat → Nat → FS → RunResult
  | 0, _, fs => ⟨RunOutcome.outOfFuel, fs, []⟩
  | fuel + 1, pg, fs =>
    match env pg with
    | PageResult.fetchErr => ⟨RunOutcome.abortedFetch, fs, [pg]⟩
    | PageResult.page resp =>
      if resp.posts.isEmpty then
        ⟨RunOutcome.done, fs, [pg]⟩
      else
        let hydrated := resp.hydrate dir metadata_dir
        match processPosts ienv (selectedPosts fs hydrated.posts) fs with
        | none => ⟨RunOutcome.panicked, fs, [pg]⟩
        | some (Except.error _) => ⟨RunOutcome.abortedItem, fs, [pg]⟩
        | some (Except.ok fs2) =>
          let r := runPages env ienv dir metadata_dir fuel (pg + 1) fs2
          ⟨r.outcome, r.fs, pg :: r.requested⟩

/-- Whether the final println of main ran: it is reached exactly when the
loop broke on an empty page. -/
def completionPrinted (r : RunResult) : Bool :=
  r.outcome == RunOutcome.done

/-- The eligibility predicate as the spec words it: a non-empty remote media
URL is carried, and no file exists at the derived media path
media_root/checksum.extension. -/
def eligibleSpec (fs : FS) (mediaRoot : String) (p : Post) : Bool :=
  p.file.url.isSome && !(fsExists fs (pathJoin mediaRoot (p.file.md5 ++ "." ++ p.file.ext)))

/-- Every post of every page in req that carries a media URL already has a
file at its hydrated media path in fs. -/
def allArchived (env : Nat → PageResult) (d m : String) (fs : FS) (req : List Nat) : Prop :=
  ∀ k ∈ req, ∀ resp, env k = PageResult.page resp →
    ∀ p ∈ (resp.hydrate d m).posts, p.file.url.isSome = true →
      ∀ path, p.file_path = some path → fsExists fs path = true

/-! ## Concrete fixtures (used by witnesses and counterexamples) -/

def tagsNone : Tags := ⟨[], [], [], [], [], [], [], []⟩

def flagsNone : Flags := ⟨false, false, false⟩

/-- Page-1 item carrying a media URL. -/
def post1 : Post :=
  { id := 1, created_at := "2021-01-01", updated_at := "2021-01-02",
    file := { width := 100, height := 80, ext := "png", size := 5,
              md5 := "aaa111", url := some "https://static.example/aaa111.png" },
    tags := tagsNone, rating := "s", flags := flagsNone,
    file_path := none, tags_path := none }

/-- Page-1 item whose remote file is deleted: no media URL. -/
def post2 : Post :=
  { id := 2, created_at := "2021-02-01", updated_at := "2021-02-02",
    file := { width := 64, height := 64, ext := "jpg", size := 7,
              md5 := "bbb222", url := none },
    tags := tagsNone, rating := "q",
    flags := { pending := false, flagged := false, deleted := true },
    file_path := none, tags_path := none }

/-- Remote returning page 1 = [post1, post2], page 2 empty. -/
def envTwo : Nat → PageResult := fun n =>
  if n = 1 then PageResult.page ⟨[post1, post2]⟩
  else if n = 2 then PageResult.page ⟨[]⟩
  else PageResult.fetchErr

/-- All local I/O succeeds and every media fetch returns the body IMAGE. -/
def ienvOk : Post → ItemEnv := fun _ => ⟨true, FetchOutcome.body "IMAGE", true⟩

/-- Local file creation succeeds but every media fetch fails to connect. -/
def ienvConnErr : Post → ItemEnv := fun _ => ⟨true, FetchOutcome.connErr, true⟩

/-- The final filesystem of the envTwo run started from an empty directory. -/
def fsAfterTwo : FS := (runPages envTwo ienvOk "out" "out/metadata" 3 1 []).fs

/-- An already-hydrated eligible post, for the per-item theorems. -/
def postC : Post :=
  { id := 3, created_at := "2021-03-01", updated_at := "2021-03-02",
    file := { width := 10, height := 10, ext := "gif", size := 3,
              md5 := "ccc333", url := some "https://static.example/ccc333.gif" },
    tags := tagsNone, rating := "e", flags := flagsNone,
    file_path := some "out/ccc333.gif", tags_path := some "out/metadata/ccc333.json" }

/-- Remote returning page 1 = [postC], page 2 empty. -/
def envOne : Nat → PageResult := fun n =>
  if n = 1 then PageResult.page ⟨[postC]⟩
  else if n = 2 then PageResult.page ⟨[]⟩
  else PageResult.fetchErr

/-- Remote whose very first pagination request fails. -/
def envErr : Nat → PageResult := fun _ => PageResult.fetchErr

/-! ## Basic lemmas about the filesystem model -/

theorem fsExists_fsWrite_self (fs : FS) (p c : String) :
    fsExists (fsWrite fs p c) p = true := by
  simp [fsExists, fsWrite]

theorem fsExists_fsWrite_of (fs : FS) (p q c : String) (h : fsExists fs p = true) :
    fsExists (fsWrite fs q c) p = true := by
  by_cases hpq : p = q
  · subst hpq; exact fsExists_fsWrite_self fs p c
  · simp only [fsExists, fsWrite, List.any_cons, List.any_eq_true, Bool.or_eq_true,
      beq_iff_eq] at h ⊢
    obtain ⟨e, he, hp⟩ := h
    refine Or.inr ⟨e, List.mem_filter.mpr ⟨he, ?_⟩, hp⟩
    simp [hp, hpq]

/-! ## Basic lemmas about hydration -/

theorem hydrate_posts (r : ApiResponse) (d m : String) :
    (r.hydrate d m).posts = r.posts.map (hydratePost d m) := rfl

theorem hydratePost_paths (d m : String) (p : Post) :
    (hydratePost d m p).file_path
        = some (pathJoin d ((hydratePost d m p).file.md5 ++ "." ++ (hydratePost d m p).file.ext)) ∧
    (hydratePost d m p).tags_path
        = some (pathJoin m ((hydratePost d m p).file.md5 ++ ".json")) :=
  ⟨rfl, rfl⟩

theorem mem_hydrate_paths (r : ApiResponse) (d m : String) {p : Post}
    (hp : p ∈ (r.hydrate d m).posts) :
    p.file_path = some (pathJoin d (p.file.md5 ++ "." ++ p.file.ext)) ∧
    p.tags_path = some (pathJoin m (p.file.md5 ++ ".json")) := by
  rw [hydrate_posts] at hp
  obtain ⟨q, _, rfl⟩ := List.mem_map.mp hp
  exact ⟨rfl, rfl⟩

/-! ## Basic lemmas about archive_post and archive_metadata -/

theorem archive_post_total (co : Bool) (f : FetchOutcome) (p : Post) (fs : FS)
    (h : p.file.url.isSome = true → p.file_path.isSome = true) :
    ∃ fs2, archive_post co f p fs = some (fs2, Except.ok ()) := by
  cases hu : p.file.url with
  | none => exact ⟨fs, by simp [archive_post, hu]⟩
  | some u =>
    cases hp : p.file_path with
    | none => simp [hu, hp] at h
    | some path =>
      cases co with
      | false => exact ⟨fs, by simp [archive_post, hu, hp]⟩
      | true =>
        cases f with
        | connErr => exact ⟨fsWrite fs path "", by simp [archive_post, hu, hp]⟩
        | bodyErr => exact ⟨fsWrite fs path "", by simp [archive_post, hu, hp]⟩
        | body b => exact ⟨fsWrite (fsWrite fs path "") path b, by simp [archive_post, hu, hp]⟩

theorem archive_post_mono (co : Bool) (f : FetchOutcome) (p : Post) (fs fs2 : FS)
    (e : Except Unit Unit) (q : String)
    (hrun : archive_post co f p fs = some (fs2, e)) (h : fsExists fs q = true) :
    fsExists fs2 q = true := by
  cases hu : p.file.url with
  | none => simp [archive_post, hu] at hrun; rw [← hrun.1]; exact h
  | some u =>
    cases hp : p.file_path with
    | none => simp [archive_post, hu, hp] at hrun
    | some path =>
      cases co with
      | false => simp [archive_post, hu, hp] at hrun; rw [← hrun.1]; exact h
      | true =>
        cases f with
        | connErr =>
          simp [archive_post, hu, hp] at hrun
          rw [← hrun.1]; exact fsExists_fsWrite_of fs q path "" h
        | bodyErr =>
          simp [archive_post, hu, hp] at hrun
          rw [← hrun.1]; exact fsExists_fsWrite_of fs q path "" h
        | body b =>
          simp [archive_post, hu, hp] at hrun
          rw [← hrun.1]
          exact fsExists_fsWrite_of _ q path b (fsExists_fsWrite_of fs q path "" h)

theorem archive_post_creates (f : FetchOutcome) (p : Post) (fs fs2 : FS)
    (e : Except Unit Unit) (path : String)
    (hu : p.file.url.isSome = true) (hp : p.file_path = some path)
    (hrun : archive_post true f p fs = some (fs2, e)) :
    fsExists fs2 path = true := by
  obtain ⟨u, hu⟩ := Option.isSome_iff_exists.mp hu
  cases f with
  | connErr =>
    simp [archive_post, hu, hp] at hrun
    rw [← hrun.1]; exact fsExists_fsWrite_self fs path ""
  | bodyErr =>
    simp [archive_post, hu, hp] at hrun
    rw [← hrun.1]; exact fsExists_fsWrite_self fs path ""
  | body b =>
    simp [archive_post, hu, hp] at hrun
    rw [← hrun.1]; exact fsExists_fsWrite_self _ path b

theorem archive_metadata_total (co : Bool) (p : Post) (fs : FS)
    (h : p.tags_path.isSome = true) :
    ∃ fs2, archive_metadata co p fs = some fs2 := by
  obtain ⟨tp, htp⟩ := Option.isSome_iff_exists.mp h
  cases co with
  | false => exact ⟨fs, by simp [archive_metadata, htp]⟩
  | true => exact ⟨fsWrite fs tp (serializePost p), by simp [archive_metadata, htp]⟩

theorem archive_metadata_mono (co : Bool) (p : Post) (fs fs2 : FS) (q : String)
    (hrun : archive_metadata co p fs = some fs2) (h : fsExists fs q = true) :
    fsExists fs2 q = true := by
  cases htp : p.tags_path with
  | none => simp [archive_metadata, htp] at hrun
  | some tp =>
    cases co with
    | false => simp [archive_metadata, htp] at hrun; rw [← hrun]; exact h
    | true =>
      simp [archive_metadata, htp] at hrun
      rw [← hrun]; exact fsExists_fsWrite_of fs q tp (serializePost p) h

theorem archive_metadata_writes (p : Post) (fs : FS) (tp : String)
    (htp : p.tags_path = some tp) :
    archive_metadata true p fs = some (fsWrite fs tp (serializePost p)) := by
  simp [archive_metadata, htp]

/-! ## Basic lemmas about processPosts -/

theorem processPosts_total (ienv : Post → ItemEnv) (posts : List Post) (fs : FS)
    (h : ∀ p ∈ posts, (p.file.url.isSome = true → p.file_path.isSome = true) ∧
        p.tags_path.isSome = true) :
    ∃ fs2, processPosts ienv posts fs = some (Except.ok fs2) := by
  induction posts generalizing fs with
  | nil => exact ⟨fs, rfl⟩
  | cons p rest ih =>
    obtain ⟨h1, h2⟩ := h p (List.mem_cons_self p rest)
    obtain ⟨fs1, hfs1⟩ := archive_post_total (ienv p).mediaCreateOk (ienv p).fetch p fs h1
    obtain ⟨fs2, hfs2⟩ := archive_metadata_total (ienv p).metaCreateOk p fs1 h2
    obtain ⟨fs3, hfs3⟩ := ih fs2 (fun q hq => h q (List.mem_cons_of_mem p hq))
    exact ⟨fs3, by simp [processPosts, hfs1, hfs2, hfs3]⟩

theorem processPosts_mono (ienv : Post → ItemEnv) (posts : List Post) (fs fs2 : FS)
    (q : String) (hrun : processPosts ienv posts fs = some (Except.ok fs2))
    (h : fsExists fs q = true) : fsExists fs2 q = true := by
  induction posts generalizing fs with
  | nil =>
    simp [processPosts] at hrun
    rw [← hrun]; exact h
  | cons p rest ih =>
    simp only [processPosts] at hrun
    split at hrun
    · simp at hrun
    · simp at hrun
    · rename_i fs1 hap
      split at hrun
      · simp at hrun
      · rename_i fsm ham
        exact ih fsm hrun
          (archive_metadata_mono _ p fs1 fsm q ham
            (archive_post_mono _ _ p fs fs1 _ q hap h))

theorem processPosts_creates (ienv : Post → ItemEnv) (posts : List Post) (fs fs2 : FS)
    (hco : ∀ p, (ienv p).mediaCreateOk = true)
    (hrun : processPosts ienv posts fs = some (Except.ok fs2)) :
    ∀ p ∈ posts, p.file.url.isSome = true →
      ∀ path, p.file_path = some path → fsExists fs2 path = true := by
  induction posts generalizing fs with
  | nil => intro p hp; exact absurd hp (List.not_mem_nil p)
  | cons p rest ih =>
    intro p0 hp0 hu path hpath
    simp only [processPosts] at hrun
    split at hrun
    · simp at hrun
    · simp at hrun
    · rename_i fs1 hap
      split at hrun
      · simp at hrun
      · rename_i fsm ham
        rcases List.mem_cons.mp hp0 with heq | hmem
        · subst heq
          have h1 : fsExists fs1 path = true := by
            have hc := hco p0
            rw [hc] at hap
            exact archive_post_creates (ienv p0).fetch p0 fs fs1 _ path hu hpath hap
          exact processPosts_mono ienv rest fsm fs2 path hrun
            (archive_metadata_mono _ p0 fs1 fsm path ham h1)
        · exact ih fsm hrun p0 hmem hu path hpath

/-! ## Basic lemmas about the eligibility filter -/

theorem mem_selectedPosts (fs : FS) (posts : List Post) (p : Post) :
    p ∈ selectedPosts fs posts ↔ p ∈ posts ∧
      (p.file.url.isSome &&
        match p.file_path with
        | some q => !(fsExists fs q)
        | none => false) = true :=
  List.mem_filter

theorem selectedPosts_eq_nil (fs : FS) (posts : List Post)
    (h : ∀ p ∈ posts, p.file.url.isSome = true →
        ∀ path, p.file_path = some path → fsExists fs path = true) :
    selectedPosts fs posts = [] := by
  refine List.filter_eq_nil_iff.mpr ?_
  intro p hp
  cases hu : p.file.url with
  | none => simp [hu]
  | some u =>
    cases hfp : p.file_path with
    | none => simp [hu, hfp]
    | some path =>
      have hex := h p hp (by simp [hu]) path hfp
      simp [hu, hfp, hex]

/-! ## Lemmas about the main loop -/

theorem runPages_mono (env : Nat → PageResult) (ienv : Post → ItemEnv) (d m : String) :
    ∀ fuel pg fs q, fsExists fs q = true →
      fsExists (runPages env ienv d m fuel pg fs).fs q = true := by
  intro fuel
  induction fuel with
  | zero => intro pg fs q h; exact h
  | succ fuel ih =>
    intro pg fs q h
    simp only [runPages]
    cases henv : env pg with
    | fetchErr => exact h
    | page resp =>
      cases hemp : resp.posts.isEmpty with
      | true => simp only [hemp, if_true]; exact h
      | false =>
        simp only [hemp, Bool.false_eq_true, if_false]
        cases hpp : processPosts ienv (selectedPosts fs (resp.hydrate d m).posts) fs with
        | none => exact h
        | some e =>
          cases e with
          | error e0 => exact h
          | ok fsP => exact ih (pg + 1) fsP q (processPosts_mono ienv _ fs fsP q hpp h)

theorem runPages_done_char (env : Nat → PageResult) (ienv : Post → ItemEnv) (d m : String) :
    ∀ fuel pg fs res, runPages env ienv d m fuel pg fs = res →
      res.outcome = RunOutcome.done →
      ∃ k resp, res.requested = List.range' pg (k + 1) ∧
        env (pg + k) = PageResult.page resp ∧ resp.posts = [] ∧
        ∀ j, j < k → ∃ rj, env (pg + j) = PageResult.page rj ∧ rj.posts ≠ [] := by
  intro fuel
  induction fuel with
  | zero =>
    intro pg fs res hres hout
    subst hres; simp [runPages] at hout
  | succ fuel ih =>
    intro pg fs res hres hout
    simp only [runPages] at hres
    cases henv : env pg with
    | fetchErr =>
      simp only [henv] at hres
      subst hres; simp at hout
    | page resp =>
      simp only [henv] at hres
      cases hemp : resp.posts.isEmpty with
      | true =>
        simp only [hemp, if_true] at hres
        subst hres
        exact ⟨0, resp, by simp [List.range'_one], by simpa using henv,
          List.isEmpty_iff.mp hemp, fun j hj => absurd hj (by omega)⟩
      | false =>
        simp only [hemp, Bool.false_eq_true, if_false] at hres
        cases hpp : processPosts ienv (selectedPosts fs (resp.hydrate d m).posts) fs with
        | none => simp only [hpp] at hres; subst hres; simp at hout
        | some e =>
          cases e with
          | error e0 => simp only [hpp] at hres; subst hres; simp at hout
          | ok fsP =>
            simp only [hpp] at hres
            subst hres
            obtain ⟨k, resp2, hreq, henv2, hemp2, hprev⟩ :=
              ih (pg + 1) fsP _ rfl (by simpa using hout)
            refine ⟨k + 1, resp2, ?_, ?_, hemp2, ?_⟩
            · simpa [List.range'_succ] using hreq
            · have harith : pg + (k + 1) = pg + 1 + k := by omega
              rw [harith]; exact henv2
            · intro j hj
              cases j with
              | zero =>
                exact ⟨resp, by simpa using henv, List.isEmpty_eq_false.mp hemp⟩
              | succ j0 =>
                obtain ⟨rj, hj1, hj2⟩ := hprev j0 (by omega)
                have harith : pg + (j0 + 1) = pg + 1 + j0 := by omega
                exact ⟨rj, by rw [harith]; exact hj1, hj2⟩

theorem runPages_abort_char (env : Nat → PageResult) (ienv : Post → ItemEnv) (d m : String) :
    ∀ fuel pg fs res, runPages env ienv d m fuel pg fs = res →
      res.outcome = RunOutcome.abortedFetch →
      ∃ k, res.requested = List.range' pg (k + 1) ∧
        env (pg + k) = PageResult.fetchErr ∧
        ∀ j, j < k → ∃ rj, env (pg + j) = PageResult.page rj ∧ rj.posts ≠ [] := by
  intro fuel
  induction fuel with
  | zero =>
    intro pg fs res hres hout
    subst hres; simp [runPages] at hout
  | succ fuel ih =>
    intro pg fs res hres hout
    simp only [runPages] at hres
    cases henv : env pg with
    | fetchErr =>
      simp only [henv] at hres
      subst hres
      exact ⟨0, by simp [List.range'_one], by simpa using henv,
        fun j hj => absurd hj (by omega)⟩
    | page resp =>
      simp only [henv] at hres
      cases hemp : resp.posts.isEmpty with
      | true =>
        simp only [hemp, if_true] at hres
        subst hres; simp at hout
      | false =>
        simp only [hemp, Bool.false_eq_true, if_false] at hres
        cases hpp : processPosts ienv (selectedPosts fs (resp.hydrate d m).posts) fs with
        | none => simp only [hpp] at hres; subst hres; simp at hout
        | some e =>
          cases e with
          | error e0 => simp only [hpp] at hres; subst hres; simp at hout
          | ok fsP =>
            simp only [hpp] at hres
            subst hres
            obtain ⟨k, hreq, henv2, hprev⟩ := ih (pg + 1) fsP _ rfl (by simpa using hout)
            refine ⟨k + 1, ?_, ?_, ?_⟩
            · simpa [List.range'_succ] using hreq
            · have harith : pg + (k + 1) = pg + 1 + k := by omega
              rw [harith]; exact henv2
            · intro j hj
              cases j with
              | zero =>
                exact ⟨resp, by simpa using henv, List.isEmpty_eq_false.mp hemp⟩
              | succ j0 =>
                obtain ⟨rj, hj1, hj2⟩ := hprev j0 (by omega)
                have harith : pg + (j0 + 1) = pg + 1 + j0 := by omega
                exact ⟨rj, by rw [harith]; exact hj1, hj2⟩

theorem runPages_allArchived (env : Nat → PageResult) (ienv : Post → ItemEnv) (d m : String)
    (hco : ∀ p, (ienv p).mediaCreateOk = true) :
    ∀ fuel pg fs res, runPages env ienv d m fuel pg fs = res →
      res.outcome = RunOutcome.done →
      allArchived env d m res.fs res.requested := by
  intro fuel
  induction fuel with
  | zero => intro pg fs res hres hout; subst hres; simp [runPages] at hout
  | succ fuel ih =>
    intro pg fs res hres hout
    simp only [runPages] at hres
    cases henv : env pg with
    | fetchErr => simp only [henv] at hres; subst hres; simp at hout
    | page resp =>
      simp only [henv] at hres
      cases hemp : resp.posts.isEmpty with
      | true =>
        simp only [hemp, if_true] at hres
        subst hres
        intro k hk resp2 henv2 p hp hu path hpath
        have hkpg : k = pg := by simpa using hk
        subst hkpg
        rw [henv] at henv2
        injection henv2 with h2
        subst h2
        have hnil : (resp.hydrate d m).posts = [] := by
          rw [hydrate_posts, List.isEmpty_iff.mp hemp]; rfl
        rw [hnil] at hp
        exact absurd hp (List.not_mem_nil p)
      | false =>
        simp only [hemp, Bool.false_eq_true, if_false] at hres
        cases hpp : processPosts ienv (selectedPosts fs (resp.hydrate d m).posts) fs with
        | none => simp only [hpp] at hres; subst hres; simp at hout
        | some e =>
          cases e with
          | error e0 => simp only [hpp] at hres; subst hres; simp at hout
          | ok fsP =>
            simp only [hpp] at hres
            subst hres
            have hout2 : (runPages env ienv d m fuel (pg + 1) fsP).outcome
                = RunOutcome.done := by simpa using hout
            have hrec := ih (pg + 1) fsP _ rfl hout2
            intro k hk resp2 henv2 p hp hu path hpath
            rcases List.mem_cons.mp hk with hkpg | hkmem
            · subst hkpg
              rw [henv] at henv2
              injection henv2 with h2
              subst h2
              by_cases hsel : p ∈ selectedPosts fs (resp.hydrate d m).posts
              · have h1 := processPosts_creates ienv _ fs fsP hco hpp p hsel hu path hpath
                exact runPages_mono env ienv d m fuel (k + 1) fsP path h1
              · have hnot : ¬(p.file.url.isSome &&
                    match p.file_path with
                    | some q => !(fsExists fs q)
                    | none => false) = true :=
                  fun hc => hsel ((mem_selectedPosts fs _ p).mpr ⟨hp, hc⟩)
                simp only [hu, hpath, Bool.true_and, Bool.not_eq_true'] at hnot
                have hex : fsExists fs path = true := by
                  by_contra hne
                  exact hnot (by simp [Bool.not_eq_true] at hne ⊢; exact hne)
                have h1 := processPosts_mono ienv _ fs fsP path hpp hex
                exact runPages_mono env ienv d m fuel (k + 1) fsP path h1
            · exact hrec k hkmem resp2 henv2 p hp hu path hpath

theorem runPages_rerun (env : Nat → PageResult) (ienv : Post → ItemEnv) (d m : String) :
    ∀ fuel pg fs res fs0, runPages env ienv d m fuel pg fs = res →
      res.outcome = RunOutcome.done →
      allArchived env d m fs0 res.requested →
      runPages env ienv d m fuel pg fs0 = ⟨RunOutcome.done, fs0, res.requested⟩ := by
  intro fuel
  induction fuel with
  | zero => intro pg fs res fs0 hres hout hall; subst hres; simp [runPages] at hout
  | succ fuel ih =>
    intro pg fs res fs0 hres hout hall
    simp only [runPages] at hres ⊢
    cases henv : env pg with
    | fetchErr => simp only [henv] at hres; subst hres; simp at hout
    | page resp =>
      simp only [henv] at hres ⊢
      cases hemp : resp.posts.isEmpty with
      | true =>
        simp only [hemp, if_true] at hres ⊢
        subst hres
        rfl
      | false =>
        simp only [hemp, Bool.false_eq_true, if_false] at hres ⊢
        cases hpp : processPosts ienv (selectedPosts fs (resp.hydrate d m).posts) fs with
        | none => simp only [hpp] at hres; subst hres; simp at hout
        | some e =>
          cases e with
          | error e0 => simp only [hpp] at hres; subst hres; simp at hout
          | ok fsP =>
            simp only [hpp] at hres
            subst hres
            have hout2 : (runPages env ienv d m fuel (pg + 1) fsP).outcome
                = RunOutcome.done := by simpa using hout
            have hsel : selectedPosts fs0 (resp.hydrate d m).posts = [] := by
              apply selectedPosts_eq_nil
              intro p hp hu path hpath
              exact hall pg (List.mem_cons_self pg _) resp henv p hp hu path hpath
            rw [hsel]
            have htail : allArchived env d m fs0
                (runPages env ienv d m fuel (pg + 1) fsP).requested := by
              intro k hk
              exact hall k (List.mem_cons_of_mem pg hk)
            have hrec := ih (pg + 1) fsP _ fs0 rfl hout2 htail
            simp only [processPosts]
            rw [hrec]

theorem runPages_never_item_abort_or_panic (env : Nat → PageResult)
    (ienv : Post → ItemEnv) (d m : String) :
    ∀ fuel pg fs, (runPages env ienv d m fuel pg fs).outcome ≠ RunOutcome.abortedItem ∧
      (runPages env ienv d m fuel pg fs).outcome ≠ RunOutcome.panicked := by
  intro fuel
  induction fuel with
  | zero => intro pg fs; simp [runPages]
  | succ fuel ih =>
    intro pg fs
    simp only [runPages]
    cases henv : env pg with
    | fetchErr => simp
    | page resp =>
      cases hemp : resp.posts.isEmpty with
      | true => simp [hemp]
      | false =>
        simp only [hemp, Bool.false_eq_true, if_false]
        have hsome : ∃ fs2, processPosts ienv
            (selectedPosts fs (resp.hydrate d m).posts) fs = some (Except.ok fs2) := by
          apply processPosts_total
          intro p hp
          have hmem : p ∈ (resp.hydrate d m).posts := ((mem_selectedPosts fs _ p).mp hp).1
          obtain ⟨h1, h2⟩ := mem_hydrate_paths resp d m hmem
          exact ⟨fun _ => by simp [h1], by simp [h2]⟩
        obtain ⟨fs2, hfs2⟩ := hsome
        simp only [hfs2]
        exact ih (pg + 1) fs2

/-! ## The claims -/

/-- Claim C1: for every item of a fetched (hydrated) page, the item is
selected for download iff its remote media URL is present and no file exists
at its derived media path media_root/checksum.extension; and the selected
items form a sublist of the page, so their relative order is the page
order. -/
theorem claim_C1_dedupe_filter (r : ApiResponse) (d m : String) (fs : FS) :
    selectedPosts fs (r.hydrate d m).posts
      = (r.hydrate d m).posts.filter (eligibleSpec fs d) ∧
    (selectedPosts fs (r.hydrate d m).posts).Sublist (r.hydrate d m).posts := by
  constructor
  · unfold selectedPosts
    apply List.filter_congr
    intro p hp
    obtain ⟨hfp, _⟩ := mem_hydrate_paths r d m hp
    rw [hfp, eligibleSpec]
  · exact List.filter_sublist _

/-- Claim C2 is a code bug: archive_post calls File::create on the derived
media path before issuing the fetch, so after a connection failure an empty
file is left at the media path, and the dedupe filter of any later pass
excludes the item instead of retrying it.  This theorem evaluates the code at
the failing input. -/
theorem claim_C2_failed_fetch_leaves_file :
    archive_post true FetchOutcome.connErr postC []
      = some ([("out/ccc333.gif", "")], Except.ok ()) ∧
    fsExists [("out/ccc333.gif", "")] "out/ccc333.gif" = true ∧
    selectedPosts [("out/ccc333.gif", "")] [postC] = [] :=
  ⟨rfl, by decide, by decide⟩

/-- Claim C3 counterexample: a run whose only eligible item's media fetch
fails with a connection error still writes that item's metadata file, because
archive_metadata runs unconditionally after every download attempt. -/
theorem claim_C3_counterexample :
    (ienvConnErr postC).fetch = FetchOutcome.connErr ∧
    (runPages envOne ienvConnErr "out" "out/metadata" 3 1 []).outcome
      = RunOutcome.done ∧
    fsExists (runPages envOne ienvConnErr "out" "out/metadata" 3 1 []).fs
      "out/metadata/ccc333.json" = true :=
  ⟨rfl, by decide, by decide⟩

/-- Claim C3 amended: for every eligible item whose media download fails, a
metadata file for the item is nevertheless written during the run (provided
creating the metadata file succeeds); the download outcome is never
consulted, and the per-page loop still completes over the remaining items. -/
theorem claim_C3_amended (ienv : Post → ItemEnv) (p : Post) (rest : List Post)
    (fs : FS) (tp : String)
    (_hfail : (ienv p).fetch = FetchOutcome.connErr ∨ (ienv p).fetch = FetchOutcome.bodyErr)
    (hfp : p.file_path.isSome = true) (htp : p.tags_path = some tp)
    (hmeta : (ienv p).metaCreateOk = true)
    (hrest : ∀ q ∈ rest, (q.file.url.isSome = true → q.file_path.isSome = true) ∧
        q.tags_path.isSome = true) :
    ∃ fs2, processPosts ienv (p :: rest) fs = some (Except.ok fs2) ∧
      fsExists fs2 tp = true := by
  obtain ⟨fs1, hfs1⟩ :=
    archive_post_total (ienv p).mediaCreateOk (ienv p).fetch p fs (fun _ => hfp)
  have hmet := archive_metadata_writes p fs1 tp htp
  obtain ⟨fs3, hfs3⟩ :=
    processPosts_total ienv rest (fsWrite fs1 tp (serializePost p)) hrest
  refine ⟨fs3, ?_, ?_⟩
  · simp [processPosts, hfs1, hmeta, hmet, hfs3]
  · exact processPosts_mono ienv rest _ fs3 tp hfs3
      (fsExists_fsWrite_self fs1 tp (serializePost p))

/-- Witness for the amended claim C3 at a concrete input. -/
theorem claim_C3_amended_witness :
    ∃ fs2, processPosts ienvConnErr [postC] [] = some (Except.ok fs2) ∧
      fsExists fs2 "out/metadata/ccc333.json" = true :=
  claim_C3_amended ienvConnErr postC [] [] "out/metadata/ccc333.json"
    (Or.inl rfl) rfl rfl rfl (fun q hq => absurd hq (List.not_mem_nil q))

/-- Claim C4: whenever a run ends in a pagination-fetch abort, the page that
failed is the last page requested (no further page is requested), every
earlier requested page was a non-empty page, and the completion message is
not printed; and the completion message is printed only when the walker
reached an empty page. -/
theorem claim_C4_fail_fast :
    (∀ (env : Nat → PageResult) (ienv : Post → ItemEnv) (d m : String)
        (fuel pg : Nat) (fs : FS) (res : RunResult),
      runPages env ienv d m fuel pg fs = res →
      res.outcome = RunOutcome.abortedFetch →
      completionPrinted res = false ∧
      ∃ k, res.requested = List.range' pg (k + 1) ∧
        env (pg + k) = PageResult.fetchErr ∧
        ∀ j, j < k → ∃ rj, env (pg + j) = PageResult.page rj ∧ rj.posts ≠ []) ∧
    (∀ (env : Nat → PageResult) (ienv : Post → ItemEnv) (d m : String)
        (fuel pg : Nat) (fs : FS) (res : RunResult),
      runPages env ienv d m fuel pg fs = res →
      completionPrinted res = true →
      ∃ k resp, res.requested = List.range' pg (k + 1) ∧
        env (pg + k) = PageResult.page resp ∧ resp.posts = []) := by
  constructor
  · intro env ienv d m fuel pg fs res h1 h2
    refine ⟨by simp [completionPrinted, h2], ?_⟩
    exact runPages_abort_char env ienv d m fuel pg fs res h1 h2
  · intro env ienv d m fuel pg fs res h1 h2
    have hout : res.outcome = RunOutcome.done := by
      simpa [completionPrinted] using h2
    obtain ⟨k, resp, hreq, henv, hresp, _⟩ :=
      runPages_done_char env ienv d m fuel pg fs res h1 hout
    exact ⟨k, resp, hreq, henv, hresp⟩

/-- Witness for claim C4 at concrete inputs: a remote whose first pagination
request fails, and the two-page scenario remote. -/
theorem claim_C4_fail_fast_witness :
    (completionPrinted ⟨RunOutcome.abortedFetch, [], [1]⟩ = false ∧
      ∃ k, ([1] : List Nat) = List.range' 1 (k + 1) ∧
        envErr (1 + k) = PageResult.fetchErr ∧
        ∀ j, j < k → ∃ rj, envErr (1 + j) = PageResult.page rj ∧ rj.posts ≠ []) ∧
    (∃ k resp, (runPages envTwo ienvOk "out" "out/metadata" 3 1 []).requested
        = List.range' 1 (k + 1) ∧
      envTwo (1 + k) = PageResult.page resp ∧ resp.posts = []) :=
  ⟨by
    have h := claim_C4_fail_fast.1 envErr ienvOk "o" "o/m" 1 1 []
      ⟨RunOutcome.abortedFetch, [], [1]⟩ rfl rfl
    exact h,
   claim_C4_fail_fast.2 envTwo ienvOk "out" "out/metadata" 3 1 [] _ rfl (by decide)⟩

/-- Claim C5: hydration derives the media path media_root/c.e and the
metadata path metadata_root/c.json from an item's checksum c and extension e
alone: every hydrated item carries exactly those paths, and two items
agreeing on checksum and extension hydrate to identical paths whatever their
other fields. -/
theorem claim_C5_path_determinism :
    (∀ (r : ApiResponse) (d m : String) (p : Post), p ∈ (r.hydrate d m).posts →
      p.file_path = some (d ++ "/" ++ p.file.md5 ++ "." ++ p.file.ext) ∧
      p.tags_path = some (m ++ "/" ++ p.file.md5 ++ ".json")) ∧
    (∀ (d m : String) (p q : Post), p.file.md5 = q.file.md5 → p.file.ext = q.file.ext →
      (hydratePost d m p).file_path = (hydratePost d m q).file_path ∧
      (hydratePost d m p).tags_path = (hydratePost d m q).tags_path) := by
  constructor
  · intro r d m p hp
    obtain ⟨h1, h2⟩ := mem_hydrate_paths r d m hp
    rw [h1, h2]
    constructor
    · simp [pathJoin, String.append_assoc]
    · simp [pathJoin, String.append_assoc]
  · intro d m p q h1 h2
    simp [hydratePost, pathJoin, h1, h2]

/-- Witness for claim C5 at a concrete input. -/
theorem claim_C5_path_determinism_witness :
    ((hydratePost "out" "out/metadata" post1).file_path
        = some ("out" ++ "/" ++ (hydratePost "out" "out/metadata" post1).file.md5
            ++ "." ++ (hydratePost "out" "out/metadata" post1).file.ext) ∧
      (hydratePost "out" "out/metadata" post1).tags_path
        = some ("out/metadata" ++ "/"
            ++ (hydratePost "out" "out/metadata" post1).file.md5 ++ ".json")) ∧
    ((hydratePost "out" "out/metadata" post1).file_path
        = (hydratePost "out" "out/metadata" post1).file_path ∧
      (hydratePost "out" "out/metadata" post1).tags_path
        = (hydratePost "out" "out/metadata" post1).tags_path) :=
  ⟨claim_C5_path_determinism.1 ⟨[post1, post2]⟩ "out" "out/metadata"
      (hydratePost "out" "out/metadata" post1)
      (by simp [ApiResponse.hydrate]),
    claim_C5_path_determinism.2 "out" "out/metadata" post1 post1 rfl rfl⟩

/-- Claim C6: per-item errors never abort the run: archive_post returns Ok on
every input (whatever the fetch outcome or create failure), the per-page loop
runs to completion over any list of hydrated items under any per-item I/O
oracle, and no run ever ends by a per-item abort. -/
theorem claim_C6_per_item_recovery :
    (∀ (co : Bool) (f : FetchOutcome) (p : Post) (fs : FS),
      (p.file.url.isSome = true → p.file_path.isSome = true) →
      ∃ fs2, archive_post co f p fs = some (fs2, Except.ok ())) ∧
    (∀ (ienv : Post → ItemEnv) (posts : List Post) (fs : FS),
      (∀ p ∈ posts, (p.file.url.isSome = true → p.file_path.isSome = true) ∧
        p.tags_path.isSome = true) →
      ∃ fs2, processPosts ienv posts fs = some (Except.ok fs2)) ∧
    (∀ (env : Nat → PageResult) (ienv : Post → ItemEnv) (d m : String)
        (fuel pg : Nat) (fs : FS),
      (runPages env ienv d m fuel pg fs).outcome ≠ RunOutcome.abortedItem) :=
  ⟨archive_post_total, processPosts_total,
    fun env ienv d m fuel pg fs =>
      (runPages_never_item_abort_or_panic env ienv d m fuel pg fs).1⟩

/-- Witness for claim C6 at concrete inputs, with failing per-item I/O. -/
theorem claim_C6_per_item_recovery_witness :
    (∃ fs2, archive_post true FetchOutcome.connErr postC []
        = some (fs2, Except.ok ())) ∧
    (∃ fs2, processPosts ienvConnErr [postC] [] = some (Except.ok fs2)) ∧
    (runPages envOne ienvConnErr "out" "out/metadata" 3 1 []).outcome
      ≠ RunOutcome.abortedItem :=
  ⟨claim_C6_per_item_recovery.1 true FetchOutcome.connErr postC [] (fun _ => rfl),
    claim_C6_per_item_recovery.2.1 ienvConnErr [postC] []
      (fun q hq => by
        rcases List.mem_singleton.mp hq with rfl
        exact ⟨fun _ => rfl, rfl⟩),
    claim_C6_per_item_recovery.2.2 envOne ienvConnErr "out" "out/metadata" 3 1 []⟩

/-- Claim C7: the walker halts normally exactly on an empty page: fetching an
empty page makes the run end there at once with outcome done, and any run
with outcome done ended on an empty page after traversing only non-empty
pages, no matter what the items contained. -/
theorem claim_C7_termination :
    (∀ (env : Nat → PageResult) (ienv : Post → ItemEnv) (d m : String)
        (fuel pg : Nat) (fs : FS) (resp : ApiResponse),
      env pg = PageResult.page resp → resp.posts = [] →
      runPages env ienv d m (fuel + 1) pg fs = ⟨RunOutcome.done, fs, [pg]⟩) ∧
    (∀ (env : Nat → PageResult) (ienv : Post → ItemEnv) (d m : String)
        (fuel pg : Nat) (fs : FS) (res : RunResult),
      runPages env ienv d m fuel pg fs = res →
      res.outcome = RunOutcome.done →
      ∃ k resp, res.requested = List.range' pg (k + 1) ∧
        env (pg + k) = PageResult.page resp ∧ resp.posts = [] ∧
        ∀ j, j < k → ∃ rj, env (pg + j) = PageResult.page rj ∧ rj.posts ≠ []) := by
  constructor
  · intro env ienv d m fuel pg fs resp henv hresp
    simp [runPages, henv, hresp]
  · intro env ienv d m fuel pg fs res h1 h2
    exact runPages_done_char env ienv d m fuel pg fs res h1 h2

/-- Witness for claim C7 at concrete inputs. -/
theorem claim_C7_termination_witness :
    runPages envTwo ienvOk "out" "out/metadata" 1 2 [] = ⟨RunOutcome.done, [], [2]⟩ ∧
    ∃ k resp, (runPages envTwo ienvOk "out" "out/metadata" 3 1 []).requested
        = List.range' 1 (k + 1) ∧
      envTwo (1 + k) = PageResult.page resp ∧ resp.posts = [] ∧
      ∀ j, j < k → ∃ rj, envTwo (1 + j) = PageResult.page rj ∧ rj.posts ≠ [] :=
  ⟨claim_C7_termination.1 envTwo ienvOk "out" "out/metadata" 0 2 [] ⟨[]⟩ rfl rfl,
    claim_C7_termination.2 envTwo ienvOk "out" "out/metadata" 3 1 [] _ rfl (by decide)⟩

/-- Claim C8: when a run completes from filesystem fs against a remote, and
local file creation succeeds throughout, a second run of the same remote from
the resulting filesystem requests the same pages, changes no file (the final
filesystem is unchanged), and on every requested page the eligibility filter
selects nothing, so no download is performed. -/
theorem claim_C8_idempotence (env : Nat → PageResult) (ienv : Post → ItemEnv)
    (d m : String) (fuel pg : Nat) (fs fs2 : FS) (req : List Nat)
    (hco : ∀ p, (ienv p).mediaCreateOk = true)
    (hrun : runPages env ienv d m fuel pg fs = ⟨RunOutcome.done, fs2, req⟩) :
    runPages env ienv d m fuel pg fs2 = ⟨RunOutcome.done, fs2, req⟩ ∧
    ∀ k ∈ req, ∀ resp, env k = PageResult.page resp →
      selectedPosts fs2 (resp.hydrate d m).posts = [] := by
  have hall : allArchived env d m fs2 req :=
    runPages_allArchived env ienv d m hco fuel pg fs _ hrun rfl
  constructor
  · exact runPages_rerun env ienv d m fuel pg fs _ fs2 hrun rfl hall
  · intro k hk resp henv
    exact selectedPosts_eq_nil fs2 _ (hall k hk resp henv)

/-- Witness for claim C8: the second run of the two-page scenario from its
own output directory is a no-op. -/
theorem claim_C8_idempotence_witness :
    runPages envTwo ienvOk "out" "out/metadata" 3 1 fsAfterTwo
      = ⟨RunOutcome.done, fsAfterTwo, [1, 2]⟩ ∧
    selectedPosts fsAfterTwo
      ((ApiResponse.mk [post1, post2]).hydrate "out" "out/metadata").posts = [] := by
  have h := claim_C8_idempotence envTwo ienvOk "out" "out/metadata" 3 1 [] fsAfterTwo
    [1, 2] (fun p => rfl) (by decide)
  exact ⟨h.1, h.2 1 (by decide) ⟨[post1, post2]⟩ (by decide)⟩

/-- Claim C9: with page 1 holding one item with a URL (post1) and one without
(post2), and page 2 empty, the run completes with the success message, pages
1 and 2 are requested, exactly the media file and the metadata file of post1
exist afterwards, post2 produced neither file, and the directory holds
exactly two files. -/
theorem claim_C9_scenario :
    (runPages envTwo ienvOk "out" "out/metadata" 3 1 []).outcome = RunOutcome.done ∧
    completionPrinted (runPages envTwo ienvOk "out" "out/metadata" 3 1 []) = true ∧
    (runPages envTwo ienvOk "out" "out/metadata" 3 1 []).requested = [1, 2] ∧
    fsExists fsAfterTwo "out/aaa111.png" = true ∧
    fsExists fsAfterTwo "out/metadata/aaa111.json" = true ∧
    fsExists fsAfterTwo "out/bbb222.jpg" = false ∧
    fsExists fsAfterTwo "out/metadata/bbb222.json" = false ∧
    fsAfterTwo.length = 2 :=
  ⟨by decide, by decide, by decide, by decide, by decide, by decide, by decide,
    by decide⟩

/-- Claim C10: hydration leaves every post of a page with both derived path
fields set, and consequently no run of the pipeline ever panics on the
unwrap calls of file_path or tags_path. -/
theorem claim_C10_no_unwrap_panic :
    (∀ (r : ApiResponse) (d m : String) (p : Post), p ∈ (r.hydrate d m).posts →
      p.file_path.isSome = true ∧ p.tags_path.isSome = true) ∧
    (∀ (env : Nat → PageResult) (ienv : Post → ItemEnv) (d m : String)
        (fuel pg : Nat) (fs : FS),
      (runPages env ienv d m fuel pg fs).outcome ≠ RunOutcome.panicked) :=
  ⟨fun r d m p hp => by
      obtain ⟨h1, h2⟩ := mem_hydrate_paths r d m hp
      rw [h1, h2]; exact ⟨rfl, rfl⟩,
    fun env ienv d m fuel pg fs =>
      (runPages_never_item_abort_or_panic env ienv d m fuel pg fs).2⟩

/-- Witness for claim C10 at concrete inputs. -/
theorem claim_C10_no_unwrap_panic_witness :
    ((hydratePost "out" "out/metadata" post1).file_path.isSome = true ∧
      (hydratePost "out" "out/metadata" post1).tags_path.isSome = true) ∧
    (runPages envTwo ienvOk "out" "out/metadata" 3 1 []).outcome
      ≠ RunOutcome.panicked :=
  ⟨claim_C10_no_unwrap_panic.1 ⟨[post1, post2]⟩ "out" "out/metadata"
      (hydratePost "out" "out/metadata" post1) (by simp [ApiResponse.hydrate]),
    claim_C10_no_unwrap_panic.2 envTwo ienvOk "out" "out/metadata" 3 1 []⟩

end Monosodium

